import Mathlib

/-!  Verification of the meeting-ai transcript-to-report pipeline.

Shallow embedding of the core of `src/auto_summarize.py` (ReportGenerator),
`src/note.py` (`_call_azure_api`), and `src/ai_meeting_generator.py` (`run`).
Machine integers are embedded as `Int`/`Nat` (Python ints are unbounded);
Python `//` is `Int.fdiv`, `%` is `Int.fmod`, and `math.ceil(a / b)` is exact
ceiling division; exceptions are `Option`/`Except`.  The external tiktoken
tokenizer is abstracted as an encode/decode pair over a token type; a
character-level instance is used for concrete evaluation. -/

namespace MeetingAI

/-- Abstract tokenizer (models tiktoken's `cl100k_base`): `encode` turns text
into a token list, `decode` turns a token list back into text. -/
structure Encoding (τ : Type) where
  encode : List Char → List τ
  decode : List τ → List Char

/-- Character-level tokenizer instance (one token per character), used to
evaluate the splitting code on concrete inputs. -/
def charEnc : Encoding Char := ⟨id, id⟩

/-- The character set of Python `str.rstrip(" .,;")` in
`_split_large_text`. -/
def isStripChar (c : Char) : Bool := c = ' ' || c = '.' || c = ',' || c = ';'

/-- Python `s.rstrip(" .,;")`: remove trailing characters from the set. -/
def rstripPunct (s : List Char) : List Char :=
  (s.reverse.dropWhile isStripChar).reverse

/-- Loop of `ReportGenerator._split_large_text`: walk the token list,
accumulate `current_chunk`/`current_length`, close a chunk (decoding it and
stripping trailing `" .,;"`) whenever `current_length >= max_tokens`, and
flush a trailing nonempty chunk. -/
def splitGo {τ : Type} (enc : Encoding τ) (maxTokens : Nat) :
    List τ → List τ → Nat → List (List Char)
  | [], cur, _ =>
    if cur.isEmpty then [] else [rstripPunct (enc.decode cur)]
  | t :: ts, cur, len =>
    let cur2 := cur ++ [t]
    let len2 := len + 1
    if maxTokens ≤ len2 then
      rstripPunct (enc.decode cur2) :: splitGo enc maxTokens ts [] 0
    else
      splitGo enc maxTokens ts cur2 len2

/-- Embeds `ReportGenerator._split_large_text(large_text, max_tokens)`. -/
def splitLargeText {τ : Type} (enc : Encoding τ) (largeText : List Char)
    (maxTokens : Nat) : List (List Char) :=
  splitGo enc maxTokens (enc.encode largeText) [] 0

/-! ## Token counting (`ReportGenerator._count_tokens`) -/

inductive CTErr
  | unsupportedModel
deriving DecidableEq

/-- The model set given `tokens_per_message = 3` in `_count_tokens`. -/
def sixModels : List String :=
  ["gpt-3.5-turbo-0613", "gpt-3.5-turbo-16k-0613", "gpt-4-0314",
   "gpt-4-32k-0314", "gpt-4-0613", "gpt-4-32k-0613"]

/-- All model identifiers `_count_tokens` handles without raising
`NotImplementedError`. -/
def knownModels : List String := sixModels ++ ["gpt-3.5-turbo-0301"]

/-- The `messages` list `_count_tokens` builds: a single user message with
fields `role` and `content` (insertion order). -/
def messagesFor (content : List Char) : List (List (String × List Char)) :=
  [[("role", "user".data), ("content", content)]]

/-- The message loop of `_count_tokens`: per message add
`tokens_per_message`, then the encoding cost of each field value, plus
`tokens_per_name` after a `name` field. -/
def msgTokens (cost : List Char → Nat) (tpm tpn : Int)
    (msgs : List (List (String × List Char))) : Int :=
  msgs.foldl (fun acc msg =>
    msg.foldl (fun a kv =>
      let a2 := a + (cost kv.2 : Int)
      if kv.1 = "name" then a2 + tpn else a2) (acc + tpm)) 0

/-- Embeds `ReportGenerator._count_tokens(content, model)`.  `encFor` models
`tiktoken.encoding_for_model` (the cost function of the model's registered
encoding, `none` when the registry raises `KeyError`); `defaultCost` models
the `cl100k_base` fallback.  Returns (warned-about-fallback, result); the
result is `NotImplementedError` for models outside `knownModels`, else the
final token count (including the trailing `+ 3`). -/
def countTokensFull (encFor : String → Option (List Char → Nat))
    (defaultCost : List Char → Nat) (content : List Char) (model : String) :
    Bool × Except CTErr Int :=
  let fallback := (encFor model).isNone
  let cost := (encFor model).getD defaultCost
  if model ∈ sixModels then
    (fallback, .ok (msgTokens cost 3 1 (messagesFor content) + 3))
  else if model = "gpt-3.5-turbo-0301" then
    (fallback, .ok (msgTokens cost 4 (-1) (messagesFor content) + 3))
  else
    (fallback, .error .unsupportedModel)

/-- Token cost of a text under an abstract tokenizer:
`len(encoding.encode(value))`. -/
def tokenCost {τ : Type} (enc : Encoding τ) (s : List Char) : Nat :=
  (enc.encode s).length

/-- The default model of `_count_tokens`, used by every internal call site
(`self._count_tokens(split_data)`). -/
def defaultModel : String := "gpt-3.5-turbo-0613"

/-- The call `self._count_tokens(split_data)` as used by `_best_choice_split`: the
default model is registered in tiktoken, so `encFor` succeeds with the
model's own encoding. -/
def countTokensDefault {τ : Type} (enc : Encoding τ) (content : List Char) :
    Int :=
  match (countTokensFull (fun _ => some (tokenCost enc)) (tokenCost enc)
      content defaultModel).2 with
  | .ok n => n
  | .error _ => 0

/-- The fixed per-message overhead of `_count_tokens` for a known model:
`tokens_per_message` plus the trailing reply-priming constant 3. -/
def modelOverhead (model : String) : Int :=
  if model ∈ sixModels then 6 else 7

/-! ## `ReportGenerator._best_choice_split` -/

/-- Exact ceiling division, embedding `math.ceil(a / b)` on ints. -/
def cdiv (a b : Int) : Int := -((-a).fdiv b)

/-- Embeds `ReportGenerator._best_choice_split(split_data)` given the instance's
`model_limit`.  `none` embeds an uncaught Python exception
(`ZeroDivisionError` on `%` or `//` with a zero divisor).  Constants as in
the source: `COMPLETION_TOKEN = 1000`, `PROMPT_TOKEN = 200`,
`CHUNK_MIN_LENGTH = 1000`, plus the extra `+ 1000` headroom in the
fits-check `total_tokens + 1000 < self.model_limit`. -/
def bestChoiceSplit {τ : Type} (enc : Encoding τ) (modelLimit : Int)
    (splitData : List Char) : Option (List (List Char) × Bool) :=
  let transcriptToken := countTokensDefault enc splitData
  let totalTokens := transcriptToken + 1000 + 200
  if totalTokens + 1000 < modelLimit then
    some ([splitData], true)
  else
    let available := modelLimit - 1000 - 200
    if available = 0 then none
    else
      let lastChunkSpace := transcriptToken.fmod available
      if lastChunkSpace < 1000 then
        let spaceForRemaining := transcriptToken - 1000
        let q := transcriptToken.fdiv available
        if q = 0 then none
        else some (splitLargeText enc splitData
          (cdiv spaceForRemaining q).toNat, false)
      else
        some (splitLargeText enc splitData available.toNat, false)

/-! ## `ReportGenerator._openai_parallel_request` and the usage ledger -/

/-- The two cumulative counters `self.prompt_tokens` / `self.completion_tokens`
(the spec's UsageLedger state). -/
structure Ledger where
  promptTokens : Nat
  completionTokens : Nat
deriving DecidableEq, Repr

/-- One element of the ParallelProcessor response list, i.e. the fields the
code reads from `item[2]`: `choices[0].message.content`,
`usage.prompt_tokens`, `usage.completion_tokens`.  A `none` field embeds a
missing key (Python `KeyError`/`IndexError` on access). -/
structure RespItem where
  content : Option String
  promptTokens : Option Nat
  completionTokens : Option Nat
deriving DecidableEq, Repr

/-- The list comprehension
`[item[2]["choices"][0]["message"]["content"] for item in response]`:
fails as a whole if any item lacks the field. -/
def seqContents : List RespItem → Option (List String)
  | [] => some []
  | i :: is =>
    match i.content, seqContents is with
    | some c, some cs => some (c :: cs)
    | _, _ => none

/-- Embeds `sum(item[2]["usage"]["prompt_tokens"] for item in response)`; `none`
embeds the `KeyError` raised while summing. -/
def seqPrompts : List RespItem → Option (List Nat)
  | [] => some []
  | i :: is =>
    match i.promptTokens, seqPrompts is with
    | some c, some cs => some (c :: cs)
    | _, _ => none

/-- Embeds `sum(item[2]["usage"]["completion_tokens"] for item in response)`. -/
def seqCompletions : List RespItem → Option (List Nat)
  | [] => some []
  | i :: is =>
    match i.completionTokens, seqCompletions is with
    | some c, some cs => some (c :: cs)
    | _, _ => none

/-- The `try` body of one attempt of `_openai_parallel_request`: extract the
contents, then `self.prompt_tokens += sum(...)`, then
`self.completion_tokens += sum(...)`.  The two ledger updates are separate
statements, so a `KeyError` raised while summing completion tokens leaves
the prompt-token update in place (the returned ledger of a failed attempt
is not always the input ledger). -/
def attemptOnce (items : List RespItem) (st : Ledger) :
    Except Unit (List String) × Ledger :=
  match seqContents items with
  | none => (.error (), st)
  | some rs =>
    match seqPrompts items with
    | none => (.error (), st)
    | some ps =>
      let st1 : Ledger :=
        { st with promptTokens := st.promptTokens + ps.sum }
      match seqCompletions items with
      | none => (.error (), st1)
      | some cs =>
        (.ok rs,
         { st1 with completionTokens := st1.completionTokens + cs.sum })

inductive PReqErr
  | parseFailed
  | noAttempts
deriving DecidableEq, Repr

/-- The retry loop of `_openai_parallel_request`:
`for attempt in range(max_attempts)`, re-raising the last parse error at
the final attempt; `noAttempts` embeds the implicit `return None` when
`range(max_attempts)` is empty.  `oracle k` is the response list of attempt
`k`.  Besides the result and ledger, the embedding records the number of
attempts made and the elapsed inter-attempt sleep in seconds (the source
contains no `time.sleep`, so the recorded sleep is zero). -/
def parallelRequestGo (oracle : Nat → List RespItem) (k : Nat) :
    Nat → Ledger → Except PReqErr (List String) × Ledger × Nat × Nat
  | 0, st => (.error .noAttempts, st, 0, 0)
  | n + 1, st =>
    match attemptOnce (oracle k) st with
    | (.ok rs, st1) => (.ok rs, st1, 1, 0)
    | (.error _, st1) =>
      if n = 0 then (.error .parseFailed, st1, 1, 0)
      else
        let r := parallelRequestGo oracle (k + 1) n st1
        (r.1, r.2.1, r.2.2.1 + 1, r.2.2.2)

/-- Embeds `ReportGenerator._openai_parallel_request` (retry portion), with
`max_attempts` attempts. -/
def parallelRequest (oracle : Nat → List RespItem) (maxAttempts : Nat)
    (st : Ledger) : Except PReqErr (List String) × Ledger × Nat × Nat :=
  parallelRequestGo oracle 0 maxAttempts st

/-- An attempt's response list makes the `try` body of
`_openai_parallel_request` raise (some read field is missing). -/
def itemFails (items : List RespItem) : Bool :=
  (seqContents items).isNone || (seqPrompts items).isNone ||
    (seqCompletions items).isNone

/-- An attempt's response list is "clean": it either fails before any
ledger update (missing content or missing prompt usage) or carries
complete usage.  Excluded is exactly the partial-usage shape (content and
prompt usage present, completion usage missing) on which the code mutates
`self.prompt_tokens` and then raises. -/
def cleanItems (items : List RespItem) : Bool :=
  (seqContents items).isNone || (seqPrompts items).isNone ||
    (seqCompletions items).isSome

/-- Total prompt tokens reported by a response list. -/
def sumPrompt (items : List RespItem) : Nat :=
  (items.map (fun i => i.promptTokens.getD 0)).sum

/-- Total completion tokens reported by a response list. -/
def sumCompletion (items : List RespItem) : Nat :=
  (items.map (fun i => i.completionTokens.getD 0)).sum

/-- Oracle exhibiting the partial-usage leak: attempt 0 parses content and
prompt usage (5 tokens) but lacks completion usage, so the code adds 5 to
the ledger and then raises; attempt 1 succeeds with usage (7, 2). -/
def leakOracle : Nat → List RespItem := fun k =>
  if k = 0 then [⟨some "x", some 5, none⟩]
  else [⟨some "y", some 7, some 2⟩]

/-- Oracle whose failed attempt is clean: attempt 0 fails before any
ledger update (missing prompt usage); attempt 1 succeeds with
usage (7, 2). -/
def cleanOracle : Nat → List RespItem := fun k =>
  if k = 0 then [⟨some "x", none, none⟩]
  else [⟨some "y", some 7, some 2⟩]

/-- Oracle whose every response fails to parse. -/
def failOracle : Nat → List RespItem := fun _ => [⟨none, none, none⟩]

/-! ## `note.py _call_azure_api` retry loop -/

/-- Outcome of one Azure HTTP attempt as the code reads it: a response with
usable `choices[0].message.content` (plus usage numbers), a response
without usable content, or an `OpenAIError` raised by the call. -/
inductive AzAttempt
  | success (content : String) (pt ct : Nat)
  | noContent
  | provErr (e : String)
deriving DecidableEq, Repr

/-- What `_call_azure_api` raises: `provRaise e` re-raises the caught
`OpenAIError`; `bareRaise` is the bare `raise` on the no-content path
(Python raises `RuntimeError: No active exception to reraise`). -/
inductive AzErr
  | bareRaise
  | provRaise (e : String)
deriving DecidableEq, Repr

/-- The retry loop of `_call_azure_api` (`retries = 3`, `time.sleep(10)`
before each re-attempt): returns (result, attempts made, total sleep
seconds).  `remaining = 0` embeds the implicit `return None` after an empty
loop (unreachable with the hardcoded `retries = 3`). -/
def callAzureGo (oracle : Nat → AzAttempt) (k : Nat) :
    Nat → Except AzErr String × Nat × Nat
  | 0 => (.error .bareRaise, 0, 0)
  | n + 1 =>
    match oracle k with
    | .success c _ _ => (.ok c, 1, 0)
    | .noContent =>
      if n = 0 then (.error .bareRaise, 1, 0)
      else
        let r := callAzureGo oracle (k + 1) n
        (r.1, r.2.1 + 1, r.2.2 + 10)
    | .provErr e =>
      if n = 0 then (.error (.provRaise e), 1, 0)
      else
        let r := callAzureGo oracle (k + 1) n
        (r.1, r.2.1 + 1, r.2.2 + 10)

/-- Embeds `note.py _call_azure_api` with its fixed `retries = 3`. -/
def callAzureApi (oracle : Nat → AzAttempt) :
    Except AzErr String × Nat × Nat :=
  callAzureGo oracle 0 3

/-- An Azure attempt that does not return a usable response. -/
def azFails : AzAttempt → Bool
  | .success _ _ _ => false
  | .noContent => true
  | .provErr _ => true

/-- Azure attempt oracle failing with a provider error every time. -/
def azFailOracle : Nat → AzAttempt := fun _ => .provErr "boom"

/-! ## `ai_meeting_generator.run` file writes -/

/-- Embeds `ai_meeting_generator.run` on the `transcript_path` branch, abstracting
over the outcome of `generator.generate_report()` (`genResult`) and over
the exporter's file contents (`fTxt`, `fJson`).  Returns the caller-visible
result together with the list of files written, in write order: the source
writes the transcript dump `trans.txt` before constructing the
`ReportGenerator`, then (only on success) the exporter writes
`{meeting_name}.txt` and `{meeting_name}.json`. -/
def runPipeline {E : Type} (transcript : List Char)
    (genResult : Except E (List Char)) (meetingName : String)
    (fTxt fJson : String → List Char → List Char) :
    Except E (List Char) × List (String × List Char) :=
  let fs : List (String × List Char) := [("trans.txt", transcript)]
  match genResult with
  | .error e => (.error e, fs)
  | .ok report =>
    (.ok (fTxt meetingName report),
     fs ++ [(meetingName ++ ".txt", fTxt meetingName report),
            (meetingName ++ ".json", fJson meetingName report)])

/-! ## `ReportGenerator._get_model_limit` error-message parsing -/

/-- The literal of the regex
`"This model's maximum context length is (\\d+)"`. -/
def probePattern : List Char :=
  "This model".data ++ [Char.ofNat 39] ++ "s maximum context length is ".data

def takeDigits (s : List Char) : List Char := s.takeWhile Char.isDigit

/-- Decimal value of a digit string, as Python `int(...)`. -/
def digitsToNat (ds : List Char) : Nat :=
  ds.foldl (fun acc c => 10 * acc + (c.toNat - 48)) 0

/-- Match a literal pattern at the head of a string, returning the rest. -/
def stripLit : List Char → List Char → Option (List Char)
  | [], s => some s
  | _ :: _, [] => none
  | p :: ps, c :: cs => if c = p then stripLit ps cs else none

/-- Embeds `re.search` for the probe regex: scan left to right for the first
position where the literal matches and at least one digit follows; the
captured group is the maximal digit run there. -/
def extractLimit : List Char → Option Nat
  | [] => none
  | c :: rest =>
    match stripLit probePattern (c :: rest) with
    | some tail =>
      let ds := takeDigits tail
      if ds.isEmpty then extractLimit rest else some (digitsToNat ds)
    | none => extractLimit rest

inductive ProbeErr
  | probeFailed
  | badResponse
deriving DecidableEq, Repr

/-- Embeds `ReportGenerator._get_model_limit`, given the probe response's error
message (`none` embeds a response without an `error.message` field, whose
`KeyError` is logged and re-raised).  On a regex match the code returns
`int(match.group(1)) - 100`; otherwise it raises `ValueError` (the spec's
`CapabilityProbeFailed`). -/
def getModelLimit (errorMessage : Option (List Char)) : Except ProbeErr Int :=
  match errorMessage with
  | none => .error .badResponse
  | some msg =>
    match extractLimit msg with
    | some n => .ok ((n : Int) - 100)
    | none => .error .probeFailed

/-- A concrete provider error message of the shape the probe expects. -/
def probeMsg : List Char := probePattern ++ "4097 tokens".data

/-! ## `ReportGenerator.generate_report` -/

inductive RunErr
  | outOfFuel
  | pyExc
deriving DecidableEq, Repr

/-- The `while True` loop of `generate_report`, with explicit fuel (the
source has no bound: exhausting the fuel means the source loops on).
`narrate` is the model oracle behind `_preprocess_chunks` (one narration
output per chunk); each iteration narrates the current chunks, joins the
summaries with `"".join`, and re-splits.  The returned `Nat` counts the
narration rounds performed. -/
def generateLoop {τ : Type} (enc : Encoding τ) (modelLimit : Int)
    (narrate : List (List Char) → List (List Char)) :
    Nat → List (List Char) → Nat → Except RunErr (List (List Char) × Nat)
  | 0, _, _ => .error .outOfFuel
  | fuel + 1, chunks, rounds =>
    let summaries := narrate chunks
    match bestChoiceSplit enc modelLimit summaries.flatten with
    | none => .error .pyExc
    | some (chunks2, passLimit) =>
      if passLimit then .ok (chunks2, rounds + 1)
      else generateLoop enc modelLimit narrate fuel chunks2 (rounds + 1)

/-- Embeds `ReportGenerator.generate_report`: initial split (`chunks, _ = ...`
discards the fits flag), then the narrate/re-split loop, then the single
`_generate_report_content` call (`structureCall` is that model oracle,
applied to the final chunk list).  Returns the report together with the
number of narration rounds. -/
def generateReport {τ : Type} (enc : Encoding τ) (modelLimit : Int)
    (narrate : List (List Char) → List (List Char))
    (structureCall : List (List Char) → List Char) (fuel : Nat)
    (transcript : List Char) : Except RunErr (List Char × Nat) :=
  match bestChoiceSplit enc modelLimit transcript with
  | none => .error .pyExc
  | some (chunks, _) =>
    match generateLoop enc modelLimit narrate fuel chunks 0 with
    | .ok (chunks2, rounds) => .ok (structureCall chunks2, rounds)
    | .error e => .error e

/-! ## Helper lemmas about the splitter -/

lemma countTokensDefault_eq {τ : Type} (enc : Encoding τ) (c : List Char) :
    countTokensDefault enc c =
      6 + (tokenCost enc "user".data : Int) + tokenCost enc c := by
  have hmem : defaultModel ∈ sixModels := by decide
  simp only [countTokensDefault, countTokensFull, messagesFor, msgTokens,
    List.foldl, if_pos hmem, Option.getD_some, Option.isNone_some]
  rw [if_neg (show ("role" : String) ≠ "name" by decide),
    if_neg (show ("content" : String) ≠ "name" by decide)]
  unfold tokenCost
  omega

lemma countTokensDefault_nonneg {τ : Type} (enc : Encoding τ)
    (c : List Char) : 0 ≤ countTokensDefault enc c := by
  rw [countTokensDefault_eq]
  positivity

lemma countTokensDefault_charEnc (c : List Char) :
    countTokensDefault charEnc c = 10 + c.length := by
  rw [countTokensDefault_eq]
  have h1 : tokenCost charEnc "user".data = 4 := by decide
  have h2 : tokenCost charEnc c = c.length := rfl
  rw [h1, h2]
  ring

lemma dropWhile_eq_self_of_all {p : Char → Bool} {s : List Char}
    (h : ∀ c ∈ s, p c = false) : s.dropWhile p = s := by
  cases s with
  | nil => rfl
  | cons c cs =>
    rw [List.dropWhile_cons, h c (List.mem_cons_self c cs)]
    simp

lemma rstripPunct_no_strip {s : List Char}
    (h : ∀ c ∈ s, isStripChar c = false) : rstripPunct s = s := by
  unfold rstripPunct
  rw [dropWhile_eq_self_of_all, List.reverse_reverse]
  intro c hc
  exact h c (List.mem_reverse.mp hc)

lemma rstripPunct_append_strip {s : List Char} {c0 : Char}
    (h : ∀ c ∈ s, isStripChar c = false) (hc0 : isStripChar c0 = true) :
    rstripPunct (s ++ [c0]) = s := by
  unfold rstripPunct
  rw [List.reverse_append, List.reverse_singleton, List.singleton_append,
    List.dropWhile_cons, hc0]
  simp only [if_true]
  rw [dropWhile_eq_self_of_all (fun c hc => h c (List.mem_reverse.mp hc)),
    List.reverse_reverse]

/-- Splitting a token list that never reaches the budget yields the single
flushed chunk. -/
lemma splitGo_small {τ : Type} (enc : Encoding τ) (m : Nat) :
    ∀ (ts cur : List τ), cur.length + ts.length < m →
      splitGo enc m ts cur cur.length =
        if (cur ++ ts).isEmpty then []
        else [rstripPunct (enc.decode (cur ++ ts))] := by
  intro ts
  induction ts with
  | nil =>
    intro cur _
    rw [List.append_nil]
    simp [splitGo]
  | cons t ts ih =>
    intro cur hlen
    rw [List.length_cons] at hlen
    have hnoclose : ¬ m ≤ cur.length + 1 := by omega
    simp only [splitGo, if_neg hnoclose]
    have hlen2 : (cur ++ [t]).length + ts.length < m := by
      rw [List.length_append, List.length_singleton]
      omega
    have hrec := ih (cur ++ [t]) hlen2
    rw [List.length_append, List.length_singleton] at hrec
    rw [hrec]
    have hne : (((cur ++ [t]) ++ ts).isEmpty) = false := by
      simp
    have hne2 : ((cur ++ t :: ts).isEmpty) = false := by
      simp
    rw [hne, hne2]
    simp

lemma splitLargeText_small {τ : Type} (enc : Encoding τ) (T : List Char)
    (m : Nat) (hlen : (enc.encode T).length < m)
    (hne : enc.encode T ≠ []) :
    splitLargeText enc T m = [rstripPunct (enc.decode (enc.encode T))] := by
  unfold splitLargeText
  have h := splitGo_small enc m (enc.encode T) [] (by simpa using hlen)
  simp only [List.length_nil, List.nil_append] at h
  rw [h]
  simp [List.isEmpty_iff, hne]

/-- The chunk-group decomposition produced by `splitGo`. -/
lemma splitGo_groups {τ : Type} (enc : Encoding τ) (m : Nat) (hm : 1 ≤ m) :
    ∀ (ts cur : List τ), cur.length < m →
      ∃ groups : List (List τ),
        splitGo enc m ts cur cur.length =
          groups.map (fun g => rstripPunct (enc.decode g)) ∧
        groups.flatten = cur ++ ts ∧
        ∀ g ∈ groups, g.length ≤ m := by
  intro ts
  induction ts with
  | nil =>
    intro cur hcur
    by_cases hc : cur = []
    · exact ⟨[], by simp [splitGo, hc], by simp [hc], by simp⟩
    · refine ⟨[cur], ?_, by simp, ?_⟩
      · simp [splitGo, List.isEmpty_iff, hc]
      · intro g hg
        rw [List.mem_singleton] at hg
        subst hg
        omega
  | cons t ts ih =>
    intro cur hcur
    by_cases hclose : m ≤ cur.length + 1
    · obtain ⟨groups, hmap, hflat, hbound⟩ :=
        ih [] (by simp only [List.length_nil]; omega)
      refine ⟨(cur ++ [t]) :: groups, ?_, ?_, ?_⟩
      · simp only [splitGo, if_pos hclose, List.map_cons]
        rw [List.length_nil] at hmap
        rw [hmap]
      · simp only [List.flatten_cons, hflat]
        simp
      · intro g hg
        rcases List.mem_cons.mp hg with hg | hg
        · subst hg
          simp only [List.length_append, List.length_singleton]
          omega
        · exact hbound g hg
    · have hcur2 : (cur ++ [t]).length < m := by
        simp only [List.length_append, List.length_singleton]
        omega
      obtain ⟨groups, hmap, hflat, hbound⟩ := ih (cur ++ [t]) hcur2
      refine ⟨groups, ?_, ?_, hbound⟩
      · simp only [splitGo, if_neg hclose]
        rw [List.length_append, List.length_singleton] at hmap
        exact hmap
      · rw [hflat]
        simp

/-- Shared characterization of the fits-in-one-chunk branch of
`_best_choice_split`: the flag comes back `true` exactly when
`total_tokens + 1000 < model_limit`, i.e. token count plus the
1000-completion and 200-prompt reserves plus the extra 1000 headroom is
under the limit. -/
lemma bestChoice_true_iff {τ : Type} (enc : Encoding τ) (limit : Int)
    (T : List Char) :
    bestChoiceSplit enc limit T = some ([T], true) ↔
      countTokensDefault enc T + 2200 < limit := by
  unfold bestChoiceSplit
  by_cases h : countTokensDefault enc T + 1000 + 200 + 1000 < limit
  · rw [if_pos h]
    constructor
    · intro _
      omega
    · intro _
      rfl
  · rw [if_neg h]
    constructor
    · intro hres
      exfalso
      by_cases ha : limit - 1000 - 200 = 0
      · rw [if_pos ha] at hres
        exact Option.noConfusion hres
      · rw [if_neg ha] at hres
        by_cases hl : (countTokensDefault enc T).fmod (limit - 1000 - 200) < 1000
        · rw [if_pos hl] at hres
          by_cases hq : (countTokensDefault enc T).fdiv (limit - 1000 - 200) = 0
          · rw [if_pos hq] at hres
            exact Option.noConfusion hres
          · rw [if_neg hq] at hres
            simp at hres
        · rw [if_neg hl] at hres
          simp at hres
    · intro habs
      omega

lemma encode_charEnc (s : List Char) : charEnc.encode s = s := rfl

lemma decode_charEnc (s : List Char) : charEnc.decode s = s := rfl

lemma replicate_append_ne_nil (n : Nat) (c : Char) (t : List Char) :
    List.replicate (n + 1) c ++ t ≠ [] := by
  intro h
  have := congrArg List.length h
  rw [List.length_append, List.length_replicate, List.length_nil] at this
  omega

lemma tokenCount_repA :
    countTokensDefault charEnc (List.replicate 2000 'a') = 2010 := by
  rw [countTokensDefault_charEnc, List.length_replicate]
  norm_num

lemma tokenCount_repB :
    countTokensDefault charEnc (List.replicate 1999 'a' ++ ['.']) = 2010 := by
  rw [countTokensDefault_charEnc, List.length_append, List.length_replicate,
    List.length_singleton]
  norm_num

lemma rstrip_replicate (n : Nat) :
    rstripPunct (List.replicate n 'a') = List.replicate n 'a' := by
  apply rstripPunct_no_strip
  intro c hc
  rw [List.eq_of_mem_replicate hc]
  decide

/-- The concrete evaluation of `_best_choice_split` on 2000 `'a'`
characters at model limit 3996: a single chunk that still exceeds the
limit, flag `False`. -/
lemma bestChoice_repA :
    bestChoiceSplit charEnc 3996 (List.replicate 2000 'a') =
      some ([List.replicate 2000 'a'], false) := by
  simp only [bestChoiceSplit, tokenCount_repA]
  rw [if_neg (by norm_num : ¬ ((2010 : Int) + 1000 + 200 + 1000 < 3996))]
  rw [if_neg (by norm_num : ¬ ((3996 : Int) - 1000 - 200 = 0))]
  have h1 : (3996 : Int) - 1000 - 200 = 2796 := by norm_num
  rw [h1]
  have h2 : (2010 : Int).fmod 2796 = 2010 := by decide
  rw [h2, if_neg (by norm_num : ¬ ((2010 : Int) < 1000))]
  have h3 : ((2796 : Int)).toNat = 2796 := rfl
  rw [h3]
  have h4 : (charEnc.encode (List.replicate 2000 'a')).length < 2796 := by
    rw [encode_charEnc, List.length_replicate]
    norm_num
  have h5 : charEnc.encode (List.replicate 2000 'a') ≠ [] := by
    rw [encode_charEnc]
    have : List.replicate 2000 'a' = List.replicate (1999 + 1) 'a' ++ [] := by
      rw [List.append_nil]
    rw [this]
    exact replicate_append_ne_nil 1999 'a' []
  rw [splitLargeText_small charEnc _ 2796 h4 h5]
  show some ([rstripPunct (List.replicate 2000 'a')], false) = _
  rw [rstrip_replicate]

/-- The concrete evaluation of `_best_choice_split` on 1999 `'a'`
characters followed by `'.'` at model limit 3996: the single chunk comes
back with the trailing period stripped. -/
lemma bestChoice_repB :
    bestChoiceSplit charEnc 3996 (List.replicate 1999 'a' ++ ['.']) =
      some ([List.replicate 1999 'a'], false) := by
  simp only [bestChoiceSplit, tokenCount_repB]
  rw [if_neg (by norm_num : ¬ ((2010 : Int) + 1000 + 200 + 1000 < 3996))]
  rw [if_neg (by norm_num : ¬ ((3996 : Int) - 1000 - 200 = 0))]
  have h1 : (3996 : Int) - 1000 - 200 = 2796 := by norm_num
  rw [h1]
  have h2 : (2010 : Int).fmod 2796 = 2010 := by decide
  rw [h2, if_neg (by norm_num : ¬ ((2010 : Int) < 1000))]
  have h3 : ((2796 : Int)).toNat = 2796 := rfl
  rw [h3]
  have h4 : (charEnc.encode (List.replicate 1999 'a' ++ ['.'])).length < 2796 := by
    rw [encode_charEnc, List.length_append, List.length_replicate,
      List.length_singleton]
    norm_num
  have h5 : charEnc.encode (List.replicate 1999 'a' ++ ['.']) ≠ [] := by
    rw [encode_charEnc]
    have : List.replicate 1999 'a' = List.replicate (1998 + 1) 'a' := by norm_num
    rw [this]
    exact replicate_append_ne_nil 1998 'a' ['.']
  rw [splitLargeText_small charEnc _ 2796 h4 h5]
  show some ([rstripPunct (List.replicate 1999 'a' ++ ['.'])], false) = _
  rw [rstripPunct_append_strip (fun c hc => by
    rw [List.eq_of_mem_replicate hc]; decide) (by decide)]

/-! ## Claim C2 -/

/-- Claim C2, counterexample: the input of 1999 `'a'` followed by `'.'`
does not fit at model limit 3996, and the chunks returned by the
token-budget-aware splitter do not concatenate back to the input: the
trailing `'.'` is destroyed by the `rstrip(" .,;")` in
`_split_large_text`. -/
theorem c2_counterexample :
    ¬ (countTokensDefault charEnc (List.replicate 1999 'a' ++ ['.']) + 2200 <
        3996) ∧
    bestChoiceSplit charEnc 3996 (List.replicate 1999 'a' ++ ['.']) =
      some ([List.replicate 1999 'a'], false) ∧
    ([List.replicate 1999 'a'] : List (List Char)).flatten ≠
      List.replicate 1999 'a' ++ ['.'] := by
  refine ⟨by rw [tokenCount_repB]; norm_num, bestChoice_repB, ?_⟩
  intro h
  have hl := congrArg List.length h
  simp only [List.flatten_cons, List.flatten_nil, List.append_nil,
    List.length_replicate, List.length_append, List.length_singleton] at hl
  omega

/-- Claim C2 (amended): for a positive per-chunk token budget, the splitter
partitions the tokenization of the input into consecutive groups of at
most `m` tokens whose concatenation is exactly the tokenization of the
input (deterministic and order-preserving), but each emitted chunk is the
group's decoded text with trailing `' '`, `'.'`, `','`, `';'` characters
removed, so concatenating the chunks reconstructs the input only up to
those stripped boundary characters. -/
theorem c2_split_amended {τ : Type} (enc : Encoding τ) (T : List Char)
    (m : Nat) (hm : 1 ≤ m) :
    ∃ groups : List (List τ),
      splitLargeText enc T m =
        groups.map (fun g => rstripPunct (enc.decode g)) ∧
      groups.flatten = enc.encode T ∧
      ∀ g ∈ groups, g.length ≤ m := by
  have h := splitGo_groups enc m hm (enc.encode T) []
    (by simp only [List.length_nil]; omega)
  simpa [splitLargeText] using h

/-- Witness for `c2_split_amended` at the concrete input `"a.b"` with
budget 2. -/
theorem c2_witness :
    1 ≤ 2 ∧
    ∃ groups : List (List Char),
      splitLargeText charEnc ['a', '.', 'b'] 2 =
        groups.map (fun g => rstripPunct (charEnc.decode g)) ∧
      groups.flatten = charEnc.encode ['a', '.', 'b'] ∧
      ∀ g ∈ groups, g.length ≤ 2 :=
  ⟨by norm_num, c2_split_amended charEnc ['a', '.', 'b'] 2 (by norm_num)⟩

/-! ## Claim C3 -/

/-- Claim C3, counterexample: 2000 `'a'` characters at model limit 3996
have token count 2010, and 2010 plus the reserved completion (1000) and
prompt (200) margins is below the limit, yet `_best_choice_split` does not
return `([T], True)`: its fits-check demands an additional 1000-token
headroom. -/
theorem c3_counterexample :
    countTokensDefault charEnc (List.replicate 2000 'a') + 1000 + 200 <
      3996 ∧
    bestChoiceSplit charEnc 3996 (List.replicate 2000 'a') ≠
      some ([List.replicate 2000 'a'], true) := by
  constructor
  · rw [tokenCount_repA]
    norm_num
  · intro h
    have := (bestChoice_true_iff charEnc 3996 (List.replicate 2000 'a')).mp h
    rw [tokenCount_repA] at this
    norm_num at this

/-- Claim C3 (amended): `_best_choice_split` returns `([T], True)` exactly
when the input's token count plus the reserved completion tokens (1000),
the reserved prompt overhead (200) and an additional fixed 1000-token
headroom is strictly below the model limit. -/
theorem c3_fits_amended {τ : Type} (enc : Encoding τ) (limit : Int)
    (T : List Char) :
    bestChoiceSplit enc limit T = some ([T], true) ↔
      countTokensDefault enc T + 2200 < limit :=
  bestChoice_true_iff enc limit T

/-- Witness for `c3_fits_amended` at a concrete fitting input. -/
theorem c3_witness :
    bestChoiceSplit charEnc 10000 ['a'] = some ([['a']], true) :=
  (c3_fits_amended charEnc 10000 ['a']).mpr (by
    rw [countTokensDefault_charEnc]
    norm_num)

/-! ## Claim C7 -/

/-- Claim C7: for an input that does not fit (and any realistic model
limit, i.e. at least 3200 — every OpenAI context window the probe of
`_get_model_limit` can discover is far larger), when the naive remainder
`transcript_token % available_chunk_space` falls below the minimum
fragment size 1000, the splitter recomputes the per-chunk budget as the
ceiling division of the remaining tokens (`transcript_token - 1000`) by
one fewer chunk than the naive count (`transcript_token //
available_chunk_space`); otherwise the budget is exactly
`available_chunk_space = model_limit - 1200`.  In particular the divisor
is provably nonzero, so the recomputation never raises
`ZeroDivisionError`. -/
theorem c7_budget {τ : Type} (enc : Encoding τ) (limit : Int) (T : List Char)
    (hlim : 3200 ≤ limit)
    (hfit : ¬ countTokensDefault enc T + 2200 < limit) :
    ((countTokensDefault enc T).fmod (limit - 1200) < 1000 →
      bestChoiceSplit enc limit T =
        some (splitLargeText enc T
          (cdiv (countTokensDefault enc T - 1000)
            ((countTokensDefault enc T).fdiv (limit - 1200))).toNat,
          false)) ∧
    (1000 ≤ (countTokensDefault enc T).fmod (limit - 1200) →
      bestChoiceSplit enc limit T =
        some (splitLargeText enc T (limit - 1200).toNat, false)) := by
  have h1200 : limit - 1000 - 200 = limit - 1200 := by ring
  have htt0 : 0 ≤ countTokensDefault enc T := countTokensDefault_nonneg enc T
  have htt : 1000 ≤ countTokensDefault enc T := by omega
  constructor
  · intro hm
    simp only [bestChoiceSplit, h1200]
    rw [if_neg (by omega :
      ¬ countTokensDefault enc T + 1000 + 200 + 1000 < limit)]
    rw [if_neg (by omega : ¬ (limit - 1200 = 0))]
    rw [if_pos hm]
    rw [if_neg ?hq]
    case hq =>
      intro hq0
      have hsplit := Int.fmod_add_fdiv (countTokensDefault enc T)
        (limit - 1200)
      rw [hq0] at hsplit
      simp at hsplit
      omega
  · intro hm
    simp only [bestChoiceSplit, h1200]
    rw [if_neg (by omega :
      ¬ countTokensDefault enc T + 1000 + 200 + 1000 < limit)]
    rw [if_neg (by omega : ¬ (limit - 1200 = 0))]
    rw [if_neg (by omega :
      ¬ (countTokensDefault enc T).fmod (limit - 1200) < 1000)]

/-- Witness for `c7_budget`: at model limit 3996 and the 2000-`'a'` input
the remainder 2010 is not below 1000, so the budget is
`available_chunk_space = 2796`. -/
theorem c7_witness :
    (3200 : Int) ≤ 3996 ∧
    ¬ countTokensDefault charEnc (List.replicate 2000 'a') + 2200 < 3996 ∧
    1000 ≤ (countTokensDefault charEnc
      (List.replicate 2000 'a')).fmod ((3996 : Int) - 1200) ∧
    bestChoiceSplit charEnc 3996 (List.replicate 2000 'a') =
      some (splitLargeText charEnc (List.replicate 2000 'a')
        ((3996 : Int) - 1200).toNat, false) := by
  have hfit : ¬ countTokensDefault charEnc (List.replicate 2000 'a') + 2200 <
      (3996 : Int) := by
    rw [tokenCount_repA]
    norm_num
  have hm : 1000 ≤ (countTokensDefault charEnc
      (List.replicate 2000 'a')).fmod ((3996 : Int) - 1200) := by
    rw [tokenCount_repA]
    norm_num
    decide
  exact ⟨by norm_num, hfit, hm,
    (c7_budget charEnc 3996 (List.replicate 2000 'a') (by norm_num) hfit).2 hm⟩

/-! ## Claims C4 and C10: the `generate_report` loop -/

/-- When narration returns its input unchanged (a non-shrinking model) on
the 2000-`'a'` transcript, every iteration of the `while True` loop
reproduces the same single over-budget chunk: the loop never exits,
whatever the fuel. -/
lemma generateLoop_repA (fuel r : Nat) :
    generateLoop charEnc 3996 id fuel [List.replicate 2000 'a'] r =
      .error .outOfFuel := by
  induction fuel generalizing r with
  | zero => rfl
  | succ fuel ih =>
    simp only [generateLoop, id_eq, List.flatten_cons, List.flatten_nil,
      List.append_nil, bestChoice_repA]
    exact ih (r + 1)

/-- Claim C4: the iterative re-chunk loop of `generate_report` does not
terminate when a narration cycle fails to shrink the text.  With an
identity narration oracle (output text identical to input) and the
2000-`'a'` transcript at model limit 3996, the run never completes for any
loop bound: there is no progress detection and no `NoProgressError`
anywhere in the code — the `while True` loop spins forever. -/
theorem c4_divergence (structureCall : List (List Char) → List Char)
    (fuel : Nat) :
    generateReport charEnc 3996 id structureCall fuel
      (List.replicate 2000 'a') = .error .outOfFuel := by
  simp only [generateReport, bestChoice_repA]
  rw [generateLoop_repA fuel 0]

/-- The round counter of the loop: any successful exit performed at least
`r + 1` narration rounds. -/
lemma generateLoop_rounds {τ : Type} (enc : Encoding τ) (lim : Int)
    (nar : List (List Char) → List (List Char)) :
    ∀ (fuel : Nat) (chunks : List (List Char)) (r : Nat)
      (c2 : List (List Char)) (n : Nat),
      generateLoop enc lim nar fuel chunks r = .ok (c2, n) → r + 1 ≤ n := by
  intro fuel
  induction fuel with
  | zero =>
    intro chunks r c2 n h
    exact absurd h (by simp [generateLoop])
  | succ fuel ih =>
    intro chunks r c2 n h
    simp only [generateLoop] at h
    cases hbs : bestChoiceSplit enc lim (nar chunks).flatten with
    | none =>
      rw [hbs] at h
      exact Except.noConfusion h
    | some p =>
      obtain ⟨chunks2, pass⟩ := p
      rw [hbs] at h
      cases pass with
      | false =>
        simp only [Bool.false_eq_true, if_false] at h
        have := ih chunks2 (r + 1) c2 n h
        omega
      | true =>
        simp only [if_true] at h
        have h2 := Except.ok.inj h
        have : r + 1 = n := congrArg Prod.snd h2
        omega

/-- Claim C10: every successful `generate_report` run performs at least
one narration round before the fits-in-one-chunk flag is consulted: the
flag of the initial split is bound to `_` and discarded, so even a
transcript that fits immediately is narrated once. -/
theorem c10_narrates_first {τ : Type} (enc : Encoding τ) (lim : Int)
    (nar : List (List Char) → List (List Char))
    (structureCall : List (List Char) → List Char) (fuel : Nat)
    (T : List Char) (out : List Char × Nat) :
    generateReport enc lim nar structureCall fuel T = .ok out →
      1 ≤ out.2 := by
  intro h
  simp only [generateReport] at h
  cases hbs : bestChoiceSplit enc lim T with
  | none =>
    rw [hbs] at h
    exact Except.noConfusion h
  | some p =>
    obtain ⟨chunks, flag⟩ := p
    rw [hbs] at h
    simp only [] at h
    cases hl : generateLoop enc lim nar fuel chunks 0 with
    | error e =>
      rw [hl] at h
      exact Except.noConfusion h
    | ok q =>
      obtain ⟨c2, n⟩ := q
      rw [hl] at h
      have hn := generateLoop_rounds enc lim nar fuel chunks 0 c2 n hl
      have h2 := Except.ok.inj h
      have : out.2 = n := by
        rw [← h2]
      omega

/-- Witness for `c10_narrates_first`: a one-character transcript that fits
the limit on the very first split is still narrated once (round count 1)
before the report is produced. -/
theorem c10_witness :
    generateReport charEnc 10000 id (fun _ => ['r']) 2 ['a'] =
      .ok (['r'], 1) ∧
    1 ≤ (((['r'] : List Char), (1 : Nat))).2 :=
  ⟨rfl, c10_narrates_first charEnc 10000 id (fun _ => ['r']) 2 ['a']
    (['r'], 1) rfl⟩

/-! ## Claim C1: the usage ledger across retries -/

lemma seqPrompts_sum {items : List RespItem} {ps : List Nat}
    (h : seqPrompts items = some ps) : ps.sum = sumPrompt items := by
  induction items generalizing ps with
  | nil =>
    simp only [seqPrompts] at h
    cases h
    simp [sumPrompt]
  | cons i is ih =>
    simp only [seqPrompts] at h
    cases hi : i.promptTokens with
    | none => rw [hi] at h; exact Option.noConfusion h
    | some c =>
      rw [hi] at h
      cases hrest : seqPrompts is with
      | none => rw [hrest] at h; exact Option.noConfusion h
      | some cs =>
        rw [hrest] at h
        cases h
        simp only [List.sum_cons, sumPrompt, List.map_cons]
        rw [hi]
        simp only [Option.getD_some]
        rw [ih hrest]
        rfl

lemma seqCompletions_sum {items : List RespItem} {cs : List Nat}
    (h : seqCompletions items = some cs) : cs.sum = sumCompletion items := by
  induction items generalizing cs with
  | nil =>
    simp only [seqCompletions] at h
    cases h
    simp [sumCompletion]
  | cons i is ih =>
    simp only [seqCompletions] at h
    cases hi : i.completionTokens with
    | none => rw [hi] at h; exact Option.noConfusion h
    | some c =>
      rw [hi] at h
      cases hrest : seqCompletions is with
      | none => rw [hrest] at h; exact Option.noConfusion h
      | some cs2 =>
        rw [hrest] at h
        cases h
        simp only [List.sum_cons, sumCompletion, List.map_cons]
        rw [hi]
        simp only [Option.getD_some]
        rw [ih hrest]
        rfl

/-- A clean failed attempt leaves the ledger untouched. -/
lemma attemptOnce_clean_fail {items : List RespItem}
    (hclean : cleanItems items = true) (hf : itemFails items = true)
    (st : Ledger) : attemptOnce items st = (.error (), st) := by
  unfold attemptOnce
  cases hc : seqContents items with
  | none => rfl
  | some rs =>
    cases hp : seqPrompts items with
    | none => rfl
    | some ps =>
      cases hcmp : seqCompletions items with
      | none =>
        exfalso
        simp [cleanItems, hc, hp, hcmp] at hclean
      | some cs =>
        exfalso
        simp [itemFails, hc, hp, hcmp] at hf

/-- A parsing attempt that does not fail returns the contents and adds
exactly the reported usage to the ledger. -/
lemma attemptOnce_ok {items : List RespItem}
    (hf : itemFails items = false) (st : Ledger) :
    ∃ rs, attemptOnce items st =
      (.ok rs, ⟨st.promptTokens + sumPrompt items,
                st.completionTokens + sumCompletion items⟩) := by
  unfold attemptOnce
  cases hc : seqContents items with
  | none => exfalso; simp [itemFails, hc] at hf
  | some rs =>
    cases hp : seqPrompts items with
    | none => exfalso; simp [itemFails, hc, hp] at hf
    | some ps =>
      cases hcmp : seqCompletions items with
      | none => exfalso; simp [itemFails, hc, hp, hcmp] at hf
      | some cs =>
        refine ⟨rs, ?_⟩
        simp [seqPrompts_sum hp, seqCompletions_sum hcmp]

/-- A failed parsing attempt yields an error result (whatever happened to
the ledger). -/
lemma attemptOnce_fail_fst {items : List RespItem}
    (hf : itemFails items = true) (st : Ledger) :
    (attemptOnce items st).1 = .error () := by
  unfold attemptOnce
  cases hc : seqContents items with
  | none => rfl
  | some rs =>
    cases hp : seqPrompts items with
    | none => rfl
    | some ps =>
      cases hcmp : seqCompletions items with
      | none => rfl
      | some cs => exfalso; simp [itemFails, hc, hp, hcmp] at hf

lemma parallelGo_one_fail {oracle : Nat → List RespItem} {k : Nat}
    {st st1 : Ledger} (hat : attemptOnce (oracle k) st = (.error (), st1)) :
    parallelRequestGo oracle k 1 st = (.error .parseFailed, st1, 1, 0) := by
  simp [parallelRequestGo, hat]

lemma parallelGo_succ_fail {oracle : Nat → List RespItem} {k n : Nat}
    {st st1 : Ledger} (hat : attemptOnce (oracle k) st = (.error (), st1))
    (hn : n ≠ 0) :
    parallelRequestGo oracle k (n + 1) st =
      ((parallelRequestGo oracle (k + 1) n st1).1,
       (parallelRequestGo oracle (k + 1) n st1).2.1,
       (parallelRequestGo oracle (k + 1) n st1).2.2.1 + 1,
       (parallelRequestGo oracle (k + 1) n st1).2.2.2) := by
  simp [parallelRequestGo, hat, hn]

lemma parallelGo_succ_ok {oracle : Nat → List RespItem} {k n : Nat}
    {st stp : Ledger} {rs0 : List String}
    (hat : attemptOnce (oracle k) st = (.ok rs0, stp)) :
    parallelRequestGo oracle k (n + 1) st = (.ok rs0, stp, 1, 0) := by
  simp [parallelRequestGo, hat]

/-- Structure of a `_openai_parallel_request` run over clean attempts:
a successful run reports the usage of exactly the one successful attempt
(all earlier attempts failed and contributed nothing), and a failed run
leaves the ledger untouched. -/
lemma parallelGo_spec (oracle : Nat → List RespItem) :
    ∀ (ma k : Nat) (st : Ledger),
      (∀ i, i < ma → cleanItems (oracle (k + i)) = true) →
      (∀ rs st2 a s,
        parallelRequestGo oracle k ma st = (.ok rs, st2, a, s) →
        ∃ j, j < ma ∧ (∀ i, i < j → itemFails (oracle (k + i)) = true) ∧
          a = j + 1 ∧
          st2 = ⟨st.promptTokens + sumPrompt (oracle (k + j)),
                 st.completionTokens + sumCompletion (oracle (k + j))⟩) ∧
      (∀ e st2 a s,
        parallelRequestGo oracle k ma st = (.error e, st2, a, s) →
        st2 = st) := by
  intro ma
  induction ma with
  | zero =>
    intro k st _
    constructor
    · intro rs st2 a s h
      simp only [parallelRequestGo, Prod.mk.injEq] at h
      exact absurd h.1 (by intro hx; exact Except.noConfusion hx)
    · intro e st2 a s h
      simp only [parallelRequestGo, Prod.mk.injEq] at h
      exact h.2.1.symm
  | succ n ih =>
    intro k st hclean
    have hclean0 : cleanItems (oracle k) = true := by
      have := hclean 0 (Nat.succ_pos n)
      simpa using this
    have hshift : ∀ i, i < n → cleanItems (oracle (k + 1 + i)) = true := by
      intro i hi
      have := hclean (i + 1) (by omega)
      rwa [show k + (i + 1) = k + 1 + i from by omega] at this
    by_cases hf : itemFails (oracle k) = true
    · have hat : attemptOnce (oracle k) st = (.error (), st) :=
        attemptOnce_clean_fail hclean0 hf st
      by_cases hn : n = 0
      · subst hn
        constructor
        · intro rs st2 a s h
          rw [parallelGo_one_fail hat] at h
          simp at h
        · intro e st2 a s h
          rw [parallelGo_one_fail hat] at h
          simp only [Prod.mk.injEq] at h
          exact h.2.1.symm
      · obtain ⟨hok, herr⟩ := ih (k + 1) st hshift
        constructor
        · intro rs st2 a s h
          rw [parallelGo_succ_fail hat hn] at h
          rcases hrec : parallelRequestGo oracle (k + 1) n st with ⟨r1, r2, r3, r4⟩
          rw [hrec] at h
          simp only [Prod.mk.injEq] at h
          obtain ⟨h1, h2, h3, h4⟩ := h
          subst h1
          obtain ⟨j, hj, hfails, ha, hst⟩ := hok rs r2 r3 r4 hrec
          refine ⟨j + 1, by omega, ?_, by omega, ?_⟩
          · intro i hi
            cases i with
            | zero => simpa using hf
            | succ i =>
              have := hfails i (by omega)
              rwa [show k + 1 + i = k + (i + 1) from by omega] at this
          · rw [← h2, hst]
            rw [show k + 1 + j = k + (j + 1) from by omega]
        · intro e st2 a s h
          rw [parallelGo_succ_fail hat hn] at h
          rcases hrec : parallelRequestGo oracle (k + 1) n st with ⟨r1, r2, r3, r4⟩
          rw [hrec] at h
          simp only [Prod.mk.injEq] at h
          obtain ⟨h1, h2, h3, h4⟩ := h
          subst h1
          rw [← h2]
          exact herr e r2 r3 r4 hrec
    · have hf2 : itemFails (oracle k) = false := by
        cases hx : itemFails (oracle k)
        · rfl
        · exact absurd hx hf
      obtain ⟨rs0, hat⟩ := attemptOnce_ok hf2 st
      constructor
      · intro rs st2 a s h
        rw [parallelGo_succ_ok hat] at h
        simp only [Prod.mk.injEq] at h
        obtain ⟨h1, h2, h3, h4⟩ := h
        refine ⟨0, Nat.succ_pos n, by omega, by omega, ?_⟩
        rw [← h2]
        simp
      · intro e st2 a s h
        rw [parallelGo_succ_ok hat] at h
        simp at h

/-- Claim C1, counterexample: with the `leakOracle` run (attempt 0 parses
content and prompt usage 5 but lacks completion usage; attempt 1 succeeds
with usage (7, 2)), the run succeeds with attempt 1 as its only
successfully parsed call, whose reported usage is (7, 2) — yet the final
ledger holds 12 prompt tokens, not 7: the failed first attempt leaked its
prompt tokens into the ledger because `self.prompt_tokens` is updated
before the completion-token sum raises. -/
theorem c1_counterexample :
    parallelRequest leakOracle 3 ⟨0, 0⟩ =
      (.ok ["y"], ⟨12, 2⟩, 2, 0) ∧
    sumPrompt (leakOracle 1) = 7 ∧
    sumCompletion (leakOracle 1) = 2 ∧
    (12 : Nat) ≠ 7 :=
  ⟨rfl, rfl, rfl, by decide⟩

/-- Claim C1 (amended): provided every attempt's response is "clean"
(i.e. no response parses its content and prompt usage but lacks completion
usage), the ledger invariant holds: a successful `_openai_parallel_request`
run adds to the ledger exactly the prompt/completion tokens reported by
the single successfully parsed attempt — every earlier failed attempt
contributes zero tokens — and a failed run leaves the ledger unchanged. -/
theorem c1_ledger_amended (oracle : Nat → List RespItem) (ma : Nat)
    (st : Ledger) (hclean : ∀ i, i < ma → cleanItems (oracle i) = true) :
    (∀ rs st2 a s,
      parallelRequest oracle ma st = (.ok rs, st2, a, s) →
      ∃ j, j < ma ∧ (∀ i, i < j → itemFails (oracle i) = true) ∧
        a = j + 1 ∧
        st2 = ⟨st.promptTokens + sumPrompt (oracle j),
               st.completionTokens + sumCompletion (oracle j)⟩) ∧
    (∀ e st2 a s,
      parallelRequest oracle ma st = (.error e, st2, a, s) →
      st2 = st) := by
  have h := parallelGo_spec oracle ma 0 st (by simpa using hclean)
  unfold parallelRequest
  simpa using h

/-- Witness for `c1_ledger_amended`: with the `cleanOracle` (attempt 0
fails before any ledger update, attempt 1 succeeds with usage (7, 2)) the
run ends with ledger (7, 2) after 2 attempts. -/
theorem c1_witness :
    ∃ j, j < 2 ∧ (∀ i, i < j → itemFails (cleanOracle i) = true) ∧
      2 = j + 1 ∧
      (⟨7, 2⟩ : Ledger) =
        ⟨(0 : Nat) + sumPrompt (cleanOracle j),
         (0 : Nat) + sumCompletion (cleanOracle j)⟩ :=
  (c1_ledger_amended cleanOracle 2 ⟨0, 0⟩ (by decide)).1
    ["y"] ⟨7, 2⟩ 2 0 (by rfl)

/-! ## Claim C5: retry counts, delays and error propagation -/

lemma azFails_cases {a : AzAttempt} (h : azFails a = true) :
    a = .noContent ∨ ∃ e, a = .provErr e := by
  cases a with
  | success c pt ct => simp [azFails] at h
  | noContent => exact Or.inl rfl
  | provErr e => exact Or.inr ⟨e, rfl⟩

/-- An all-failing run of the Azure retry loop: exactly `n` attempts, a
10-second sleep between consecutive attempts (`10 * (n - 1)` seconds in
total), an error outcome, and, when the final attempt raised a provider
error, exactly that error is re-raised. -/
lemma azureGo_allfail (az : Nat → AzAttempt) :
    ∀ (n k : Nat), (∀ i, i < n → azFails (az (k + i)) = true) → n ≠ 0 →
      (∃ er, (callAzureGo az k n).1 = .error er) ∧
      (callAzureGo az k n).2.1 = n ∧
      (callAzureGo az k n).2.2 = 10 * (n - 1) ∧
      (∀ e, az (k + (n - 1)) = .provErr e →
        (callAzureGo az k n).1 = .error (.provRaise e)) := by
  intro n
  induction n with
  | zero =>
    intro k _ hn
    exact absurd rfl hn
  | succ n ih =>
    intro k hfail hn
    have h0 : azFails (az k) = true := by simpa using hfail 0 (by omega)
    by_cases hzero : n = 0
    · subst hzero
      rcases azFails_cases h0 with hc | ⟨e, hc⟩
      · refine ⟨⟨.bareRaise, ?_⟩, ?_, ?_, ?_⟩ <;> simp [callAzureGo, hc]
      · refine ⟨⟨.provRaise e, ?_⟩, ?_, ?_, ?_⟩ <;> simp [callAzureGo, hc]
    · obtain ⟨⟨er, hr1⟩, hr2, hr3, hr4⟩ := ih (k + 1) (fun i hi => by
        have := hfail (i + 1) (by omega)
        rwa [show k + (i + 1) = k + 1 + i from by omega] at this) hzero
      have hidx : k + 1 + (n - 1) = k + (n + 1 - 1) := by omega
      rcases azFails_cases h0 with hc | ⟨e, hc⟩
      · refine ⟨⟨er, ?_⟩, ?_, ?_, ?_⟩
        · simp [callAzureGo, hc, hzero, hr1]
        · simp [callAzureGo, hc, hzero, hr2]
        · simp only [callAzureGo, hc, if_neg hzero]
          rw [hr3]
          omega
        · intro e2 he2
          rw [← hidx] at he2
          simp [callAzureGo, hc, hzero, hr4 e2 he2]
      · refine ⟨⟨er, ?_⟩, ?_, ?_, ?_⟩
        · simp [callAzureGo, hc, hzero, hr1]
        · simp [callAzureGo, hc, hzero, hr2]
        · simp only [callAzureGo, hc, if_neg hzero]
          rw [hr3]
          omega
        · intro e2 he2
          rw [← hidx] at he2
          simp [callAzureGo, hc, hzero, hr4 e2 he2]

/-- An all-failing run of the `_openai_parallel_request` retry loop:
exactly `n` attempts, a parse-error outcome, and zero elapsed sleep (the
loop has no inter-attempt delay). -/
lemma parallelGo_allfail (po : Nat → List RespItem) :
    ∀ (n k : Nat) (st : Ledger),
      (∀ i, i < n → itemFails (po (k + i)) = true) → n ≠ 0 →
      (parallelRequestGo po k n st).1 = .error .parseFailed ∧
      (parallelRequestGo po k n st).2.2.1 = n ∧
      (parallelRequestGo po k n st).2.2.2 = 0 := by
  intro n
  induction n with
  | zero =>
    intro k st _ hn
    exact absurd rfl hn
  | succ n ih =>
    intro k st hfail hn
    rcases ha : attemptOnce (po k) st with ⟨res, st1⟩
    have hres : res = .error () := by
      have := attemptOnce_fail_fst (by simpa using hfail 0 (by omega)) st
      rw [ha] at this
      exact this
    subst hres
    by_cases hzero : n = 0
    · subst hzero
      rw [parallelGo_one_fail ha]
      exact ⟨rfl, rfl, rfl⟩
    · obtain ⟨hr1, hr2, hr3⟩ := ih (k + 1) st1 (fun i hi => by
        have := hfail (i + 1) (by omega)
        rwa [show k + (i + 1) = k + 1 + i from by omega] at this) hzero
      rw [parallelGo_succ_fail ha hzero]
      exact ⟨hr1, by simpa using hr2, hr3⟩

/-- Claim C5, counterexample: the OpenAI gateway
(`_openai_parallel_request`, one of the two gateway call sites the claim
covers) retries with no inter-attempt delay at all: on a run whose three
attempts all fail to parse, the total elapsed sleep is 0 seconds, not the
2 × 10 seconds the claim's fixed 10-second inter-attempt wait demands. -/
theorem c5_counterexample :
    parallelRequest failOracle 3 ⟨0, 0⟩ =
      (.error .parseFailed, ⟨0, 0⟩, 3, 0) ∧
    (0 : Nat) ≠ 10 * (3 - 1) :=
  ⟨rfl, by decide⟩

/-- Claim C5 (amended): both gateways make at most 3 attempts and
re-raise after the last failure — the error is never swallowed into a
successful return — but only the Azure gateway (`note.py
_call_azure_api`) waits the fixed 10 seconds between consecutive attempts
(20 seconds across 3 attempts) and re-raises the caught provider error;
the parallel OpenAI gateway retries immediately with zero delay. -/
theorem c5_retry_amended (az : Nat → AzAttempt) (po : Nat → List RespItem)
    (st : Ledger)
    (haz : ∀ k, k < 3 → azFails (az k) = true)
    (hpo : ∀ k, k < 3 → itemFails (po k) = true) :
    ((callAzureApi az).2.1 = 3 ∧ (callAzureApi az).2.2 = 20 ∧
     (∃ er, (callAzureApi az).1 = .error er) ∧
     (∀ e, az 2 = .provErr e →
       (callAzureApi az).1 = .error (.provRaise e))) ∧
    ((parallelRequest po 3 st).1 = .error .parseFailed ∧
     (parallelRequest po 3 st).2.2.1 = 3 ∧
     (parallelRequest po 3 st).2.2.2 = 0) := by
  constructor
  · obtain ⟨her, h2, h3, h4⟩ := azureGo_allfail az 3 0
      (by simpa using haz) (by omega)
    exact ⟨h2, h3, her, by simpa using h4⟩
  · exact parallelGo_allfail po 3 0 st (by simpa using hpo) (by omega)

/-- Witness for `c5_retry_amended` at concrete all-failing oracles. -/
theorem c5_witness :
    ((callAzureApi azFailOracle).2.1 = 3 ∧
     (callAzureApi azFailOracle).2.2 = 20 ∧
     (∃ er, (callAzureApi azFailOracle).1 = .error er) ∧
     (∀ e, azFailOracle 2 = .provErr e →
       (callAzureApi azFailOracle).1 = .error (.provRaise e))) ∧
    ((parallelRequest failOracle 3 ⟨0, 0⟩).1 = .error .parseFailed ∧
     (parallelRequest failOracle 3 ⟨0, 0⟩).2.2.1 = 3 ∧
     (parallelRequest failOracle 3 ⟨0, 0⟩).2.2.2 = 0) :=
  c5_retry_amended azFailOracle failOracle ⟨0, 0⟩ (by decide) (by decide)

/-! ## Claim C6: files written on a failed run -/

/-- Claim C6, counterexample: a run whose report generation fails still
leaves a file on disk — `run` writes the transcript dump `trans.txt`
before constructing the `ReportGenerator`, so the error propagates with
`trans.txt` already written, contradicting "an error with no output files
written". -/
theorem c6_counterexample :
    runPipeline ['t'] (.error ()) "m" (fun _ r => r) (fun _ r => r) =
      (.error (), [("trans.txt", ['t'])]) ∧
    ([("trans.txt", ['t'])] : List (String × List Char)) ≠ [] :=
  ⟨rfl, by simp⟩

/-- Claim C6 (amended): when report generation fails, the caller receives
the error and none of the report/usage export files
(`{meeting_name}.txt`, `{meeting_name}.json`) are written — but the
transcript dump `trans.txt`, written before report generation, is on
disk: it is exactly the one file produced by the failed run. -/
theorem c6_files_amended {E : Type} (e : E) (t : List Char) (name : String)
    (fTxt fJson : String → List Char → List Char) :
    runPipeline t (.error e) name fTxt fJson =
      (.error e, [("trans.txt", t)]) := rfl

/-! ## Claim C8: `_count_tokens` model handling -/

/-- Claim C8: `_count_tokens` falls back to the default `cl100k_base`
encoding exactly when the model identifier has no registered encoding
(the warned flag records the printed warning), raises
`NotImplementedError` if and only if the identifier is outside the
explicitly known model-family list, and for identifiers in that list
returns the model's fixed per-message overhead plus the encoding cost of
each field of the message (`role` and `content`), under whichever
encoding was selected. -/
theorem c8_count_tokens (encFor : String → Option (List Char → Nat))
    (defaultCost : List Char → Nat) (content : List Char) (model : String) :
    ((countTokensFull encFor defaultCost content model).2 =
        .error .unsupportedModel ↔ model ∉ knownModels) ∧
    ((countTokensFull encFor defaultCost content model).1 =
        (encFor model).isNone) ∧
    (model ∈ knownModels →
      (countTokensFull encFor defaultCost content model).2 =
        .ok (modelOverhead model +
          ((encFor model).getD defaultCost) "user".data +
          ((encFor model).getD defaultCost) content)) := by
  have hvalue : ∀ (tpm tpn : Int),
      msgTokens ((encFor model).getD defaultCost) tpm tpn
        (messagesFor content) + 3 =
      (tpm + 3) + ((encFor model).getD defaultCost) "user".data +
        ((encFor model).getD defaultCost) content := by
    intro tpm tpn
    simp only [messagesFor, msgTokens, List.foldl]
    rw [if_neg (show ("role" : String) ≠ "name" by decide),
      if_neg (show ("content" : String) ≠ "name" by decide)]
    ring
  by_cases h6 : model ∈ sixModels
  · have hknown : model ∈ knownModels := by
      unfold knownModels
      exact List.mem_append.mpr (Or.inl h6)
    refine ⟨?_, ?_, ?_⟩
    · apply iff_of_false
      · simp only [countTokensFull, if_pos h6]
        intro h
        exact Except.noConfusion h
      · simp [hknown]
    · simp only [countTokensFull, if_pos h6]
    · intro _
      simp only [countTokensFull, if_pos h6]
      rw [hvalue 3 1]
      unfold modelOverhead
      rw [if_pos h6]
      rfl
  · by_cases h0 : model = "gpt-3.5-turbo-0301"
    · have hknown : model ∈ knownModels := by
        unfold knownModels
        refine List.mem_append.mpr (Or.inr ?_)
        rw [h0]
        exact List.mem_singleton.mpr rfl
      refine ⟨?_, ?_, ?_⟩
      · apply iff_of_false
        · simp only [countTokensFull, if_neg h6, if_pos h0]
          intro h
          exact Except.noConfusion h
        · simp [hknown]
      · simp only [countTokensFull, if_neg h6, if_pos h0]
      · intro _
        simp only [countTokensFull, if_neg h6, if_pos h0]
        rw [hvalue 4 (-1)]
        unfold modelOverhead
        rw [if_neg h6]
        rfl
    · have hknown : model ∉ knownModels := by
        unfold knownModels
        intro h
        rcases List.mem_append.mp h with h | h
        · exact h6 h
        · exact h0 (List.mem_singleton.mp h)
      refine ⟨?_, ?_, ?_⟩
      · apply iff_of_true
        · simp only [countTokensFull, if_neg h6, if_neg h0]
        · exact hknown
      · simp only [countTokensFull, if_neg h6, if_neg h0]
      · intro h
        exact absurd h hknown

/-- Witness for `c8_count_tokens`: `"gpt-4-0314"` with an unregistered
encoding falls back (warned) and returns overhead 6 plus the default
costs of `"user"` and the one-character content. -/
theorem c8_witness :
    (countTokensFull (fun _ => none) (fun s => s.length) ['a']
        "gpt-4-0314").1 = true ∧
    (countTokensFull (fun _ => none) (fun s => s.length) ['a']
        "gpt-4-0314").2 = .ok 11 := by
  have h := c8_count_tokens (fun _ => none) (fun s => s.length) ['a']
    "gpt-4-0314"
  refine ⟨by rw [h.2.1]; rfl, ?_⟩
  rw [h.2.2 (by decide)]
  rfl

/-! ## Claim C9: the context-limit probe -/

lemma stripLit_sound : ∀ {p s t : List Char},
    stripLit p s = some t → s = p ++ t := by
  intro p
  induction p with
  | nil =>
    intro s t h
    simp only [stripLit] at h
    cases h
    rfl
  | cons a ps ih =>
    intro s t h
    cases s with
    | nil => simp [stripLit] at h
    | cons c cs =>
      simp only [stripLit] at h
      by_cases hc : c = a
      · rw [if_pos hc] at h
        rw [hc, List.cons_append]
        rw [← ih h]
      · rw [if_neg hc] at h
        exact Option.noConfusion h

lemma stripLit_append (p r : List Char) : stripLit p (p ++ r) = some r := by
  induction p with
  | nil => rfl
  | cons a ps ih => simp [stripLit, ih]

/-- Soundness of the probe-regex scanner: a successful extraction comes
from an occurrence of the literal pattern followed by a nonempty digit
run evaluating to the extracted number. -/
lemma extractLimit_sound : ∀ (msg : List Char) (n : Nat),
    extractLimit msg = some n →
    ∃ pre ds tail, msg = pre ++ probePattern ++ ds ++ tail ∧ ds ≠ [] ∧
      (∀ c ∈ ds, c.isDigit = true) ∧ digitsToNat ds = n := by
  intro msg
  induction msg with
  | nil =>
    intro n h
    exact Option.noConfusion h
  | cons c rest ih =>
    intro n h
    simp only [extractLimit] at h
    cases hs : stripLit probePattern (c :: rest) with
    | some tail0 =>
      rw [hs] at h
      simp only [] at h
      by_cases hd : (takeDigits tail0).isEmpty
      · rw [if_pos hd] at h
        obtain ⟨pre, ds, tail, hmsg, hne, hdig, hval⟩ := ih n h
        exact ⟨c :: pre, ds, tail, by rw [hmsg]; simp [List.cons_append],
          hne, hdig, hval⟩
      · rw [if_neg hd] at h
        refine ⟨[], takeDigits tail0, tail0.dropWhile Char.isDigit,
          ?_, ?_, ?_, ?_⟩
        · rw [List.nil_append, List.append_assoc]
          unfold takeDigits
          rw [List.takeWhile_append_dropWhile Char.isDigit tail0]
          exact stripLit_sound hs
        · intro hnil
          rw [← List.isEmpty_iff] at hnil
          exact hd hnil
        · intro x hx
          exact List.mem_takeWhile_imp hx
        · exact Option.some.inj h
    | none =>
      rw [hs] at h
      simp only [] at h
      obtain ⟨pre, ds, tail, hmsg, hne, hdig, hval⟩ := ih n h
      exact ⟨c :: pre, ds, tail, by rw [hmsg]; simp [List.cons_append],
        hne, hdig, hval⟩

/-- Completeness of the probe-regex scanner: whenever the literal pattern
followed by a nonempty digit run occurs in the message, the scanner
extracts some number. -/
lemma extractLimit_complete : ∀ (pre ds tail : List Char), ds ≠ [] →
    (∀ c ∈ ds, c.isDigit = true) →
    ∃ n, extractLimit (pre ++ probePattern ++ ds ++ tail) = some n := by
  intro pre
  induction pre with
  | nil =>
    intro ds tail hne hdig
    rw [List.nil_append, List.append_assoc]
    cases hl : probePattern ++ (ds ++ tail) with
    | nil =>
      exfalso
      have hpp : probePattern = [] := (List.append_eq_nil.mp hl).1
      exact absurd (congrArg List.length hpp) (by decide)
    | cons c rest =>
      simp only [extractLimit]
      rw [← hl, stripLit_append probePattern (ds ++ tail)]
      simp only []
      cases ds with
      | nil => exact absurd rfl hne
      | cons d ds2 =>
        have hd : d.isDigit = true := hdig d (List.mem_cons_self d ds2)
        rw [List.cons_append]
        unfold takeDigits
        rw [List.takeWhile_cons_of_pos hd]
        rw [if_neg (by simp : ¬ ((d :: List.takeWhile Char.isDigit
          (ds2 ++ tail)).isEmpty = true))]
        exact ⟨_, rfl⟩
  | cons a pre ih =>
    intro ds tail hne hdig
    have hshape : ((a :: pre) ++ probePattern) ++ ds ++ tail =
        a :: ((pre ++ probePattern) ++ ds ++ tail) := by
      simp [List.cons_append]
    rw [hshape]
    simp only [extractLimit]
    cases hs : stripLit probePattern
        (a :: ((pre ++ probePattern) ++ ds ++ tail)) with
    | some tail0 =>
      simp only []
      by_cases hd : (takeDigits tail0).isEmpty
      · rw [if_pos hd]
        exact ih ds tail hne hdig
      · rw [if_neg hd]
        exact ⟨_, rfl⟩
    | none =>
      simp only []
      exact ih ds tail hne hdig

/-- Claim C9: if the probe response's error message contains the literal
"This model's maximum context length is" followed by an integer, the
discovered limit is that integer minus the 100-token safety margin; if
the message does not contain that shape, `_get_model_limit` raises
(`ValueError`, the spec's `CapabilityProbeFailed`) instead of silently
returning a default. -/
theorem c9_probe (msg : List Char) :
    (∀ n, extractLimit msg = some n →
      getModelLimit (some msg) = .ok ((n : Int) - 100) ∧
      ∃ pre ds tail, msg = pre ++ probePattern ++ ds ++ tail ∧ ds ≠ [] ∧
        (∀ c ∈ ds, c.isDigit = true) ∧ digitsToNat ds = n) ∧
    (extractLimit msg = none →
      getModelLimit (some msg) = .error .probeFailed ∧
      ∀ pre ds tail, msg = pre ++ probePattern ++ ds ++ tail → ds ≠ [] →
        (∀ c ∈ ds, c.isDigit = true) → False) := by
  constructor
  · intro n h
    refine ⟨?_, extractLimit_sound msg n h⟩
    simp [getModelLimit, h]
  · intro h
    refine ⟨by simp [getModelLimit, h], ?_⟩
    intro pre ds tail hmsg hne hdig
    obtain ⟨n, hn⟩ := extractLimit_complete pre ds tail hne hdig
    rw [← hmsg, h] at hn
    exact Option.noConfusion hn

/-- Witness for `c9_probe`: on the message
"This model's maximum context length is 4097 tokens" the probe returns
4097 - 100 = 3997. -/
theorem c9_witness :
    extractLimit probeMsg = some 4097 ∧
    getModelLimit (some probeMsg) = .ok 3997 := by
  have h : extractLimit probeMsg = some 4097 := by decide
  refine ⟨h, ?_⟩
  have h2 := ((c9_probe probeMsg).1 4097 h).1
  norm_num at h2
  exact h2

end MeetingAI
